import Mathlib

/-!
Verification of the quoting and order-lifecycle engine of the dydx-trading-bot
repository against its specification.

The TypeScript sources are embedded shallowly:
* JS numbers are modelled as exact rationals (ℚ); Math.round is floor (x + 1/2);
* JS truthiness of optional numeric fields is modelled through Option together
  with explicit zero tests where the source tests a number for truthiness;
* the two tracking maps of OrderManager (activeOrders keyed by clientId and the
  ordersByMarket index) are modelled as a single association list of OrderInfo
  values keyed by clientId, the market index being recovered by filtering;
* exchange and network effects are modelled by explicit environments (success
  predicates per submission / per cancellation, fetched open-order lists,
  generated client ids).
-/

namespace DydxMM

/-- JS Math.round: round half toward positive infinity, Math.round x = floor (x + 1/2). -/
def mathRound (x : ℚ) : ℤ := ⌊x + 1/2⌋

theorem mathRound_mono {x y : ℚ} (h : x ≤ y) : mathRound x ≤ mathRound y :=
  Int.floor_le_floor (by linarith)

/-- src/src/mm/utils.ts roundPrice: Math.round(price * 10^decimals) / 10^decimals,
default 2 decimals. -/
def roundPrice (price : ℚ) (decimals : ℕ := 2) : ℚ :=
  (mathRound (price * 10 ^ decimals) : ℚ) / 10 ^ decimals

/-- src/src/mm/utils.ts roundSize: Math.round(size * 10^decimals) / 10^decimals,
default 4 decimals. -/
def roundSize (size : ℚ) (decimals : ℕ := 4) : ℚ :=
  (mathRound (size * 10 ^ decimals) : ℚ) / 10 ^ decimals

/-- Number.MAX_SAFE_INTEGER. -/
def maxSafeInteger : ℚ := 9007199254740991

/-- src/src/mm/utils.ts isValidPrice: price > 0 and price < MAX_SAFE_INTEGER
(the NaN test has no counterpart for exact rationals). -/
def isValidPrice (price : ℚ) : Bool := 0 < price ∧ price < maxSafeInteger

/-- src/src/mm/utils.ts isValidSize. -/
def isValidSize (size : ℚ) : Bool := 0 < size ∧ size < maxSafeInteger

/-- JS "x || d" on an optional numeric config field: undefined and 0 are falsy. -/
def jsOrNat : Option ℕ → ℕ → ℕ
  | some n, d => if n = 0 then d else n
  | none, d => d

/-- Order side (dYdX OrderSide). -/
inductive Side where
  | buy
  | sell
deriving DecidableEq, Repr

/-- src/src/mm/types.ts OrderType (market-maker order class). -/
inductive MMOrderType where
  | SHORT_TERM
  | LONG_TERM
deriving DecidableEq, Repr

/-- The orderConfig fields of MarketMakerConfig that the verified code reads.
The source fields roundPrice / roundSize are renamed to avoid clashing with the
rounding functions. -/
structure OrderConfig where
  roundPriceDecimals : Option ℕ
  roundSizeDecimals : Option ℕ
  batchSize : Option ℕ
  batchDelay : Option ℕ
deriving Repr

/-- oracleStrategy block of MarketMakerConfig (src/unnamed/part_003). -/
structure OracleStrategyConfig where
  enabled : Bool
  oraclePriceThreshold : ℚ
deriving Repr

/-- The MarketMakerConfig fields the verified code reads
(src/src/mm/types.ts; riskParameters.maxDrawdown is inlined). -/
structure MarketMakerConfig where
  marketId : String
  spread : ℚ
  stepSize : ℚ
  priceSteps : ℕ
  orderSize : ℚ
  maxOrders : ℕ
  maxPositionSize : ℚ
  maxDrawdown : ℚ
  orderType : MMOrderType
  orderConfig : OrderConfig
  oracleStrategy : Option OracleStrategyConfig
deriving Repr

/-- The exact (pre-rounding) bid value at ladder level i:
midPrice * (1 - (spread/2 + (i+1)*stepSize)/100). -/
def bidLevelRaw (midPrice spread stepSize : ℚ) (i : ℕ) : ℚ :=
  midPrice * (1 - (spread / 2 + ((i : ℚ) + 1) * stepSize) / 100)

/-- The exact (pre-rounding) ask value at ladder level i:
midPrice * (1 + (spread/2 + (i+1)*stepSize)/100). -/
def askLevelRaw (midPrice spread stepSize : ℚ) (i : ℕ) : ℚ :=
  midPrice * (1 + (spread / 2 + ((i : ℚ) + 1) * stepSize) / 100)

namespace OrderManager

/-- src/src/mm/order-manager.ts OrderManager.calculateOrderPrices: for each
i < priceSteps, offset = (i+1)*stepSize; push rounded bid and ask with
config.orderConfig.roundPrice || 3 decimals. -/
def calculateOrderPrices (midPrice : ℚ) (config : MarketMakerConfig) :
    List ℚ × List ℚ :=
  let d := jsOrNat config.orderConfig.roundPriceDecimals 3
  ((List.range config.priceSteps).map fun i =>
      roundPrice (bidLevelRaw midPrice config.spread config.stepSize i) d,
   (List.range config.priceSteps).map fun i =>
      roundPrice (askLevelRaw midPrice config.spread config.stepSize i) d)

/-- src/src/mm/order-manager.ts OrderManager.calculateOrderSize:
roundSize(baseSize * (1 + level * 0.1)) with the default 4 decimals. -/
def calculateOrderSize (baseSize : ℚ) (level : ℕ) : ℚ :=
  roundSize (baseSize * (1 + (level : ℚ) * (1/10)))

/-- The size actually submitted for a level: placeOrder re-rounds the size with
config.orderConfig.roundSize || 4 decimals (src/src/mm/order-manager.ts,
placeOrder). -/
def placedOrderSize (config : MarketMakerConfig) (baseSize : ℚ) (level : ℕ) : ℚ :=
  roundSize (calculateOrderSize baseSize level)
    (jsOrNat config.orderConfig.roundSizeDecimals 4)

end OrderManager

/-- A computed, not-yet-submitted order (the orderRequests entries built in
placeOrdersAroundMidPrice). -/
structure OrderRequest where
  side : Side
  price : ℚ
  size : ℚ
deriving DecidableEq, Repr

/-- One side of the orderRequests list of placeOrdersAroundMidPrice
(src/src/mm/order-manager.ts lines 74-95): for i < min(prices.length, maxOrders)
take price = prices[i], size = calculateOrderSize(orderSize, i), and keep the
request only when isValidPrice and isValidSize hold. -/
def buildSideRequests (side : Side) (prices : List ℚ) (orderSize : ℚ)
    (maxOrders : ℕ) : List OrderRequest :=
  (List.range (min prices.length maxOrders)).filterMap fun i =>
    let price := prices.getD i 0
    let size := OrderManager.calculateOrderSize orderSize i
    if isValidPrice price && isValidSize size then
      some ⟨side, price, size⟩
    else
      none

/-- The full orderRequests list of placeOrdersAroundMidPrice: buy requests from
the bid ladder followed by sell requests from the ask ladder. -/
def buildOrderRequests (midPrice : ℚ) (config : MarketMakerConfig) :
    List OrderRequest :=
  let pricePair := OrderManager.calculateOrderPrices midPrice config
  buildSideRequests .buy pricePair.1 config.orderSize config.maxOrders ++
    buildSideRequests .sell pricePair.2 config.orderSize config.maxOrders

theorem roundPrice_mono {x y : ℚ} (d : ℕ) (h : x ≤ y) :
    roundPrice x d ≤ roundPrice y d := by
  unfold roundPrice
  have hp : (0:ℚ) < 10 ^ d := by positivity
  have := mathRound_mono (mul_le_mul_of_nonneg_right h (le_of_lt hp))
  exact div_le_div_of_nonneg_right (by exact_mod_cast this) hp.le

theorem roundPrice_nonpos {x : ℚ} (d : ℕ) (h : x ≤ 0) : roundPrice x d ≤ 0 := by
  have h0 : roundPrice x d ≤ roundPrice 0 d := roundPrice_mono d h
  have : roundPrice 0 d = 0 := by
    unfold roundPrice mathRound
    norm_num
  linarith

theorem calculateOrderPrices_fst_length (midPrice : ℚ) (config : MarketMakerConfig) :
    ((OrderManager.calculateOrderPrices midPrice config).1).length = config.priceSteps := by
  simp [OrderManager.calculateOrderPrices]

theorem calculateOrderPrices_snd_length (midPrice : ℚ) (config : MarketMakerConfig) :
    ((OrderManager.calculateOrderPrices midPrice config).2).length = config.priceSteps := by
  simp [OrderManager.calculateOrderPrices]

theorem calculateOrderPrices_fst_get (midPrice : ℚ) (config : MarketMakerConfig)
    (i : ℕ) (hi : i < ((OrderManager.calculateOrderPrices midPrice config).1).length) :
    ((OrderManager.calculateOrderPrices midPrice config).1).get ⟨i, hi⟩ =
      roundPrice (bidLevelRaw midPrice config.spread config.stepSize i)
        (jsOrNat config.orderConfig.roundPriceDecimals 3) := by
  simp [OrderManager.calculateOrderPrices, List.get_eq_getElem]

theorem calculateOrderPrices_snd_get (midPrice : ℚ) (config : MarketMakerConfig)
    (i : ℕ) (hi : i < ((OrderManager.calculateOrderPrices midPrice config).2).length) :
    ((OrderManager.calculateOrderPrices midPrice config).2).get ⟨i, hi⟩ =
      roundPrice (askLevelRaw midPrice config.spread config.stepSize i)
        (jsOrNat config.orderConfig.roundPriceDecimals 3) := by
  simp [OrderManager.calculateOrderPrices, List.get_eq_getElem]

/-- A representative MarketMakerConfig used for concrete instances. -/
def baseCfg : MarketMakerConfig where
  marketId := "BTC-USD"
  spread := 1/10
  stepSize := 1/100
  priceSteps := 3
  orderSize := 1/1000
  maxOrders := 5
  maxPositionSize := 1
  maxDrawdown := 10
  orderType := .LONG_TERM
  orderConfig :=
    { roundPriceDecimals := some 3, roundSizeDecimals := some 4,
      batchSize := some 1, batchDelay := some 100 }
  oracleStrategy := none

/-- Config whose size rounding precision is 2 decimals. -/
def sizeDec2Cfg : MarketMakerConfig :=
  { baseCfg with
    orderConfig := { baseCfg.orderConfig with roundSizeDecimals := some 2 } }

/-- C2 counterexample input: with sizeDecimals = 2 and baseSize = 0.12497, the
size actually placed at level 0 is 0.13 (the level size is first rounded to the
fixed 4 decimals, giving 0.125, then to the configured 2), while the claimed
round(baseSize * (1 + 0*0.1), sizeDecimals) is 0.12. -/
theorem claim_C2_counterexample :
    OrderManager.placedOrderSize sizeDec2Cfg (12497/100000) 0 = 13/100 ∧
    roundSize ((12497:ℚ)/100000 * (1 + (0:ℚ) * (1/10))) 2 = 12/100 ∧
    OrderManager.placedOrderSize sizeDec2Cfg (12497/100000) 0 ≠
      roundSize ((12497:ℚ)/100000 * (1 + (0:ℚ) * (1/10))) 2 := by
  refine ⟨?_, ?_, ?_⟩ <;>
    norm_num [OrderManager.placedOrderSize, OrderManager.calculateOrderSize,
      sizeDec2Cfg, baseCfg, jsOrNat, roundSize, mathRound]

/-- C2 (amended): the ladder has exactly priceSteps levels per side;
bid_i = round(ref * (1 - (spread/2 + (i+1)*stepSize)/100), priceDecimals) and
ask_i = round(ref * (1 + (spread/2 + (i+1)*stepSize)/100), priceDecimals); the
size submitted at level i uses the fixed growth factor 0.1 but is rounded twice:
first to the fixed default 4 decimals (calculateOrderSize), then to the
configured size decimals (placeOrder), i.e. it equals
round(round(baseSize * (1 + i*0.1), 4), sizeDecimals) rather than
round(baseSize * (1 + i*0.1), sizeDecimals). -/
theorem claim_C2_ladder_formulas (midPrice baseSize : ℚ) (cfg : MarketMakerConfig)
    (i : ℕ) (hi : i < cfg.priceSteps) :
    ((OrderManager.calculateOrderPrices midPrice cfg).1).length = cfg.priceSteps ∧
    ((OrderManager.calculateOrderPrices midPrice cfg).2).length = cfg.priceSteps ∧
    ((OrderManager.calculateOrderPrices midPrice cfg).1).getD i 0 =
      roundPrice (midPrice * (1 - (cfg.spread / 2 + ((i : ℚ) + 1) * cfg.stepSize) / 100))
        (jsOrNat cfg.orderConfig.roundPriceDecimals 3) ∧
    ((OrderManager.calculateOrderPrices midPrice cfg).2).getD i 0 =
      roundPrice (midPrice * (1 + (cfg.spread / 2 + ((i : ℚ) + 1) * cfg.stepSize) / 100))
        (jsOrNat cfg.orderConfig.roundPriceDecimals 3) ∧
    OrderManager.placedOrderSize cfg baseSize i =
      roundSize (roundSize (baseSize * (1 + (i : ℚ) * (1/10))) 4)
        (jsOrNat cfg.orderConfig.roundSizeDecimals 4) := by
  refine ⟨calculateOrderPrices_fst_length midPrice cfg,
    calculateOrderPrices_snd_length midPrice cfg, ?_, ?_, rfl⟩ <;>
  · rw [List.getD_eq_getElem]
    · simp [OrderManager.calculateOrderPrices, bidLevelRaw, askLevelRaw]
    · simpa [OrderManager.calculateOrderPrices] using hi

/-- Witness for claim_C2_ladder_formulas at midPrice = 100, baseSize = 0.001,
config = baseCfg, level 0. -/
theorem claim_C2_ladder_formulas_witness :
    ((OrderManager.calculateOrderPrices 100 baseCfg).1).length = baseCfg.priceSteps ∧
    ((OrderManager.calculateOrderPrices 100 baseCfg).2).length = baseCfg.priceSteps ∧
    ((OrderManager.calculateOrderPrices 100 baseCfg).1).getD 0 0 =
      roundPrice (100 * (1 - (baseCfg.spread / 2 + ((0 : ℚ) + 1) * baseCfg.stepSize) / 100))
        (jsOrNat baseCfg.orderConfig.roundPriceDecimals 3) ∧
    ((OrderManager.calculateOrderPrices 100 baseCfg).2).getD 0 0 =
      roundPrice (100 * (1 + (baseCfg.spread / 2 + ((0 : ℚ) + 1) * baseCfg.stepSize) / 100))
        (jsOrNat baseCfg.orderConfig.roundPriceDecimals 3) ∧
    OrderManager.placedOrderSize baseCfg (1/1000) 0 =
      roundSize (roundSize ((1/1000 : ℚ) * (1 + (0 : ℚ) * (1/10))) 4)
        (jsOrNat baseCfg.orderConfig.roundSizeDecimals 4) :=
  claim_C2_ladder_formulas 100 (1/1000) baseCfg 0 (by norm_num [baseCfg])

theorem calculateOrderPrices_fst_getD (midPrice : ℚ) (cfg : MarketMakerConfig)
    (i : ℕ) (hi : i < cfg.priceSteps) :
    ((OrderManager.calculateOrderPrices midPrice cfg).1).getD i 0 =
      roundPrice (bidLevelRaw midPrice cfg.spread cfg.stepSize i)
        (jsOrNat cfg.orderConfig.roundPriceDecimals 3) := by
  rw [List.getD_eq_getElem]
  · simp [OrderManager.calculateOrderPrices]
  · simpa [OrderManager.calculateOrderPrices] using hi

theorem calculateOrderPrices_snd_getD (midPrice : ℚ) (cfg : MarketMakerConfig)
    (i : ℕ) (hi : i < cfg.priceSteps) :
    ((OrderManager.calculateOrderPrices midPrice cfg).2).getD i 0 =
      roundPrice (askLevelRaw midPrice cfg.spread cfg.stepSize i)
        (jsOrNat cfg.orderConfig.roundPriceDecimals 3) := by
  rw [List.getD_eq_getElem]
  · simp [OrderManager.calculateOrderPrices]
  · simpa [OrderManager.calculateOrderPrices] using hi

/-- Config on which price rounding collapses adjacent ladder levels:
step size 0.001% with 2 price decimals. -/
def collapseCfg : MarketMakerConfig :=
  { baseCfg with
    stepSize := 1/1000
    priceSteps := 2
    orderConfig := { baseCfg.orderConfig with roundPriceDecimals := some 2 } }

/-- C3 counterexample input: referencePrice = 100, spread = 0.1%,
stepSize = 0.001%, 2 price decimals. Both bid levels round to 99.95, so the
rounded bid prices are not strictly decreasing in the level index. -/
theorem claim_C3_counterexample :
    (OrderManager.calculateOrderPrices 100 collapseCfg).1 = [1999/20, 1999/20] ∧
    ¬ ((OrderManager.calculateOrderPrices 100 collapseCfg).1).getD 1 0 <
        ((OrderManager.calculateOrderPrices 100 collapseCfg).1).getD 0 0 := by
  have h : (OrderManager.calculateOrderPrices 100 collapseCfg).1 = [1999/20, 1999/20] := by
    norm_num [OrderManager.calculateOrderPrices, collapseCfg, baseCfg, jsOrNat,
      List.range_succ, bidLevelRaw, roundPrice, mathRound]
  exact ⟨h, by rw [h]; norm_num⟩

/-- The conclusion of the amended ladder-monotonicity claim: the exact
(pre-rounding) bid values are strictly below the reference and strictly
decreasing, the exact ask values strictly above and strictly increasing; the
rounded ladder entries keep those relations only weakly. -/
def ladderMonotoneConclusion (cfg : MarketMakerConfig) (mid : ℚ) (i j : ℕ) : Prop :=
  bidLevelRaw mid cfg.spread cfg.stepSize j < bidLevelRaw mid cfg.spread cfg.stepSize i ∧
  bidLevelRaw mid cfg.spread cfg.stepSize i < mid ∧
  mid < askLevelRaw mid cfg.spread cfg.stepSize i ∧
  askLevelRaw mid cfg.spread cfg.stepSize i < askLevelRaw mid cfg.spread cfg.stepSize j ∧
  ((OrderManager.calculateOrderPrices mid cfg).1).getD j 0 ≤
    ((OrderManager.calculateOrderPrices mid cfg).1).getD i 0 ∧
  ((OrderManager.calculateOrderPrices mid cfg).1).getD i 0 ≤
    roundPrice mid (jsOrNat cfg.orderConfig.roundPriceDecimals 3) ∧
  roundPrice mid (jsOrNat cfg.orderConfig.roundPriceDecimals 3) ≤
    ((OrderManager.calculateOrderPrices mid cfg).2).getD i 0 ∧
  ((OrderManager.calculateOrderPrices mid cfg).2).getD i 0 ≤
    ((OrderManager.calculateOrderPrices mid cfg).2).getD j 0

/-- C3 (amended): for every positive reference price and config with
nonnegative spread and positive step size, the exact bid values are strictly
below the reference and strictly decreasing in the level index, and the exact
ask values strictly above and strictly increasing; after rounding to the
configured price decimals these relations hold only weakly (rounding can
collapse adjacent levels onto the same tick, and can collapse a level onto the
rounded reference). -/
theorem claim_C3_ladder_monotone (cfg : MarketMakerConfig) (mid : ℚ) (i j : ℕ)
    (hmid : 0 < mid) (hspread : 0 ≤ cfg.spread) (hstep : 0 < cfg.stepSize)
    (hij : i < j) (hj : j < cfg.priceSteps) :
    ladderMonotoneConclusion cfg mid i j := by
  have hi : i < cfg.priceSteps := lt_trans hij hj
  have hcast : (i : ℚ) < (j : ℚ) := by exact_mod_cast hij
  have hApos : 0 < cfg.spread / 2 + ((i : ℚ) + 1) * cfg.stepSize := by
    have : 0 < ((i : ℚ) + 1) * cfg.stepSize := by positivity
    linarith
  have hAlt : cfg.spread / 2 + ((i : ℚ) + 1) * cfg.stepSize <
      cfg.spread / 2 + ((j : ℚ) + 1) * cfg.stepSize := by
    have : ((i : ℚ) + 1) * cfg.stepSize < ((j : ℚ) + 1) * cfg.stepSize :=
      mul_lt_mul_of_pos_right (by linarith) hstep
    linarith
  have hbij : bidLevelRaw mid cfg.spread cfg.stepSize j <
      bidLevelRaw mid cfg.spread cfg.stepSize i := by
    unfold bidLevelRaw
    exact mul_lt_mul_of_pos_left (by linarith) hmid
  have hbi : bidLevelRaw mid cfg.spread cfg.stepSize i < mid := by
    unfold bidLevelRaw
    nth_rewrite 2 [show mid = mid * 1 by ring]
    exact mul_lt_mul_of_pos_left (by linarith) hmid
  have hai : mid < askLevelRaw mid cfg.spread cfg.stepSize i := by
    unfold askLevelRaw
    nth_rewrite 1 [show mid = mid * 1 by ring]
    exact mul_lt_mul_of_pos_left (by linarith) hmid
  have haij : askLevelRaw mid cfg.spread cfg.stepSize i <
      askLevelRaw mid cfg.spread cfg.stepSize j := by
    unfold askLevelRaw
    exact mul_lt_mul_of_pos_left (by linarith) hmid
  refine ⟨hbij, hbi, hai, haij, ?_, ?_, ?_, ?_⟩
  · rw [calculateOrderPrices_fst_getD mid cfg i hi,
      calculateOrderPrices_fst_getD mid cfg j hj]
    exact roundPrice_mono _ hbij.le
  · rw [calculateOrderPrices_fst_getD mid cfg i hi]
    exact roundPrice_mono _ hbi.le
  · rw [calculateOrderPrices_snd_getD mid cfg i hi]
    exact roundPrice_mono _ hai.le
  · rw [calculateOrderPrices_snd_getD mid cfg i hi,
      calculateOrderPrices_snd_getD mid cfg j hj]
    exact roundPrice_mono _ haij.le

/-- Witness for claim_C3_ladder_monotone at mid = 100, config = baseCfg,
levels 0 and 1. -/
theorem claim_C3_ladder_monotone_witness : ladderMonotoneConclusion baseCfg 100 0 1 :=
  claim_C3_ladder_monotone baseCfg 100 0 1 (by norm_num) (by norm_num [baseCfg])
    (by norm_num [baseCfg]) (by norm_num) (by norm_num [baseCfg])

/-- Config with a single price step, for degenerate-input evaluation. -/
def oneStepCfg : MarketMakerConfig := { baseCfg with priceSteps := 1 }

/-- C9 counterexample input: with reference price 0 and one price step, the
ladder computation returns one (zero) level per side, not an empty ladder. -/
theorem claim_C9_counterexample :
    OrderManager.calculateOrderPrices 0 oneStepCfg = ([0], [0]) ∧
    (OrderManager.calculateOrderPrices 0 oneStepCfg).1 ≠ ([] : List ℚ) := by
  have h : OrderManager.calculateOrderPrices 0 oneStepCfg = ([0], [0]) := by
    norm_num [OrderManager.calculateOrderPrices, oneStepCfg, baseCfg, jsOrNat,
      List.range_succ, bidLevelRaw, askLevelRaw, roundPrice, mathRound]
  exact ⟨h, by rw [h]; simp⟩

/-- C9 (amended): zero price steps yield an empty ladder; a non-positive
reference price yields priceSteps non-positive price levels per side (not an
empty ladder), every one of which is then discarded by the isValidPrice /
isValidSize filter when order requests are built, so no order intent survives;
no error is raised in either case. (The spread/step bound keeps each percentage
offset at or below 100%, as any real configuration does.) -/
theorem claim_C9_degenerate (mid : ℚ) (cfg : MarketMakerConfig)
    (hmid : mid ≤ 0) (hspread : 0 ≤ cfg.spread) (hstep : 0 ≤ cfg.stepSize)
    (hbound : cfg.spread / 2 + (cfg.priceSteps : ℚ) * cfg.stepSize ≤ 100) :
    (cfg.priceSteps = 0 → OrderManager.calculateOrderPrices mid cfg = ([], [])) ∧
    ((OrderManager.calculateOrderPrices mid cfg).1).length = cfg.priceSteps ∧
    buildOrderRequests mid cfg = [] := by
  refine ⟨?_, calculateOrderPrices_fst_length mid cfg, ?_⟩
  · intro h0
    simp [OrderManager.calculateOrderPrices, h0]
  · have hlevel : ∀ i : ℕ, i < cfg.priceSteps →
        cfg.spread / 2 + ((i : ℚ) + 1) * cfg.stepSize ≤ 100 := by
      intro i hilt
      have hle : ((i : ℚ) + 1) ≤ (cfg.priceSteps : ℚ) := by
        exact_mod_cast Nat.succ_le_of_lt hilt
      have := mul_le_mul_of_nonneg_right hle hstep
      linarith
    have hbid : ∀ i : ℕ, i < cfg.priceSteps →
        bidLevelRaw mid cfg.spread cfg.stepSize i ≤ 0 := by
      intro i hilt
      have hfac : 0 ≤ 1 - (cfg.spread / 2 + ((i : ℚ) + 1) * cfg.stepSize) / 100 := by
        have := hlevel i hilt
        linarith
      exact mul_nonpos_of_nonpos_of_nonneg hmid hfac
    have hask : ∀ i : ℕ, i < cfg.priceSteps →
        askLevelRaw mid cfg.spread cfg.stepSize i ≤ 0 := by
      intro i hilt
      have hApos : 0 ≤ cfg.spread / 2 + ((i : ℚ) + 1) * cfg.stepSize := by
        have h1 : 0 ≤ ((i : ℚ) + 1) * cfg.stepSize := by positivity
        linarith
      have hfac : 0 ≤ 1 + (cfg.spread / 2 + ((i : ℚ) + 1) * cfg.stepSize) / 100 := by
        linarith
      exact mul_nonpos_of_nonpos_of_nonneg hmid hfac
    have hside : ∀ (s : Side) (prices : List ℚ),
        (∀ i : ℕ, i < prices.length → prices.getD i 0 ≤ 0) →
        buildSideRequests s prices cfg.orderSize cfg.maxOrders = [] := by
      intro s prices hnp
      unfold buildSideRequests
      rw [List.filterMap_eq_nil_iff]
      intro i hmem
      have hilen : i < prices.length :=
        lt_of_lt_of_le (List.mem_range.mp hmem) (min_le_left _ _)
      have hple : prices.getD i 0 ≤ 0 := hnp i hilen
      have hval : isValidPrice (prices.getD i 0) = false := by
        simp only [isValidPrice, decide_eq_false_iff_not]
        intro hcon
        exact absurd hcon.1 (not_lt.mpr hple)
      rw [List.getD_eq_getElem?_getD] at hval
      simp [hval]
    unfold buildOrderRequests
    show buildSideRequests .buy (OrderManager.calculateOrderPrices mid cfg).1
          cfg.orderSize cfg.maxOrders ++
        buildSideRequests .sell (OrderManager.calculateOrderPrices mid cfg).2
          cfg.orderSize cfg.maxOrders = []
    rw [hside .buy _ ?_, hside .sell _ ?_]
    · simp
    · intro i hilen
      rw [calculateOrderPrices_snd_length] at hilen
      rw [calculateOrderPrices_snd_getD mid cfg i hilen]
      exact roundPrice_nonpos _ (hask i hilen)
    · intro i hilen
      rw [calculateOrderPrices_fst_length] at hilen
      rw [calculateOrderPrices_fst_getD mid cfg i hilen]
      exact roundPrice_nonpos _ (hbid i hilen)

/-- Witness for claim_C9_degenerate at mid = 0, config = oneStepCfg. -/
theorem claim_C9_degenerate_witness :
    (oneStepCfg.priceSteps = 0 → OrderManager.calculateOrderPrices 0 oneStepCfg = ([], [])) ∧
    ((OrderManager.calculateOrderPrices 0 oneStepCfg).1).length = oneStepCfg.priceSteps ∧
    buildOrderRequests 0 oneStepCfg = [] :=
  claim_C9_degenerate 0 oneStepCfg (by norm_num) (by norm_num [oneStepCfg, baseCfg])
    (by norm_num [oneStepCfg, baseCfg]) (by norm_num [oneStepCfg, baseCfg])

/-- Result record of OrderManager.shouldTriggerOracleStrategy
(src/unnamed/part_003). -/
structure OracleTriggerResult where
  shouldTrigger : Bool
  oraclePrice : Option ℚ
  priceDifference : ℚ
  priceDifferencePercentage : ℚ
deriving DecidableEq, Repr

/-- src/unnamed/part_003 OrderManager.shouldTriggerOracleStrategy: return the
no-trigger record when the oracle strategy is absent/disabled, when the oracle
fetch yields nothing, or when the fetched price is non-positive; otherwise
priceDifference = |currentPrice - oraclePrice|, percentage = difference /
oraclePrice * 100, and trigger iff percentage >= oraclePriceThreshold.
The oracle provider call is abstracted as its result (oracleFetch). -/
def shouldTriggerOracleStrategy (oracleFetch : Option ℚ) (currentPrice : ℚ)
    (config : MarketMakerConfig) : OracleTriggerResult :=
  match config.oracleStrategy with
  | none => ⟨false, none, 0, 0⟩
  | some os =>
    if os.enabled = false then ⟨false, none, 0, 0⟩
    else
      match oracleFetch with
      | none => ⟨false, none, 0, 0⟩
      | some oraclePrice =>
        if oraclePrice ≤ 0 then ⟨false, none, 0, 0⟩
        else
          let priceDifference := |currentPrice - oraclePrice|
          let priceDifferencePercentage := priceDifference / oraclePrice * 100
          ⟨os.oraclePriceThreshold ≤ priceDifferencePercentage, some oraclePrice,
            priceDifference, priceDifferencePercentage⟩

/-- The conclusion of the C4 claim for an enabled oracle configuration. -/
def oracleTriggerConclusion (currentPrice : ℚ) (config : MarketMakerConfig)
    (os : OracleStrategyConfig) : Prop :=
  shouldTriggerOracleStrategy none currentPrice config = ⟨false, none, 0, 0⟩ ∧
  (∀ p : ℚ, p ≤ 0 →
    shouldTriggerOracleStrategy (some p) currentPrice config = ⟨false, none, 0, 0⟩) ∧
  (∀ p : ℚ, 0 < p →
    ((shouldTriggerOracleStrategy (some p) currentPrice config).shouldTrigger = true ↔
      os.oraclePriceThreshold ≤ |currentPrice - p| / p * 100) ∧
    (shouldTriggerOracleStrategy (some p) currentPrice config).oraclePrice = some p ∧
    (shouldTriggerOracleStrategy (some p) currentPrice config).priceDifferencePercentage =
      |currentPrice - p| / p * 100) ∧
  (∀ fetch : Option ℚ,
    (shouldTriggerOracleStrategy fetch currentPrice config).shouldTrigger = true →
    ∃ p : ℚ, fetch = some p ∧ 0 < p ∧
      (shouldTriggerOracleStrategy fetch currentPrice config).oraclePrice = some p)

/-- C4 (confirmed): for every local price and enabled oracle configuration, a
positive fetched oracle price p triggers the oracle override exactly when
|local - p| / p * 100 >= threshold (reporting p as reference); an unavailable
or non-positive oracle price yields no trigger with a zero difference; a
trigger never happens without a positive oracle reading. -/
theorem claim_C4_oracle_trigger (currentPrice : ℚ) (config : MarketMakerConfig)
    (os : OracleStrategyConfig) (hos : config.oracleStrategy = some os)
    (hen : os.enabled = true) :
    oracleTriggerConclusion currentPrice config os := by
  unfold oracleTriggerConclusion shouldTriggerOracleStrategy
  rw [hos]
  refine ⟨by simp [hen], ?_, ?_, ?_⟩
  · intro p hp
    simp [hen, if_pos hp]
  · intro p hp
    simp [hen, if_neg (not_le.mpr hp)]
  · intro fetch
    match fetch with
    | none => simp [hen]
    | some p =>
      by_cases hp : p ≤ 0
      · simp [hen, if_pos hp]
      · simp [hen, if_neg hp]
        exact fun _ => not_le.mp hp

/-- baseCfg with the oracle strategy enabled at a 0.5% threshold. -/
def oracleCfg : MarketMakerConfig :=
  { baseCfg with oracleStrategy := some { enabled := true, oraclePriceThreshold := 1/2 } }

/-- Witness for claim_C4_oracle_trigger at currentPrice = 100, threshold 0.5%;
additionally evaluates the two concrete oracle prices of the claim:
100.6 triggers the override, 100.2 does not. -/
theorem claim_C4_oracle_trigger_witness :
    oracleTriggerConclusion 100 oracleCfg ⟨true, 1/2⟩ ∧
    (shouldTriggerOracleStrategy (some (503/5)) 100 oracleCfg).shouldTrigger = true ∧
    (shouldTriggerOracleStrategy (some (501/5)) 100 oracleCfg).shouldTrigger = false := by
  refine ⟨claim_C4_oracle_trigger 100 oracleCfg ⟨true, 1/2⟩ (by rfl) (by rfl), ?_, ?_⟩ <;>
    norm_num [shouldTriggerOracleStrategy, oracleCfg, baseCfg, abs]

/-- The portfolio inputs read by MarketMakerBot.performRiskChecks. -/
structure RiskInputs where
  currentPosition : ℚ
  totalUnrealizedPnL : ℚ
  portfolioValue : ℚ
  usdcBalance : ℚ
deriving DecidableEq, Repr

/-- MarketMakerBot.performRiskChecks (src/ORACLE_STRATEGY.md): deny when the
current position size reaches maxPositionSize; deny when the portfolio value is
positive and unrealizedPnL / portfolioValue * 100 < -maxDrawdown (the drawdown
check is skipped when portfolioValue <= 0); deny when the USDC balance is below
the minimum of 10; otherwise allow. The position, PnL, portfolio value and
balance fetches are abstracted as the RiskInputs record. -/
def performRiskChecks (config : MarketMakerConfig) (inp : RiskInputs) : Bool :=
  if config.maxPositionSize ≤ inp.currentPosition then false
  else if 0 < inp.portfolioValue ∧
      inp.totalUnrealizedPnL / inp.portfolioValue * 100 < -config.maxDrawdown then false
  else if inp.usdcBalance < 10 then false
  else true

/-- C5 (confirmed): the pre-trade risk gate denies whenever the position size
reaches maxPositionSize regardless of the other inputs, and allows exactly when
the position is under the limit, the drawdown check passes (vacuously so when
portfolioValue <= 0), and the balance is at least the minimum of 10. -/
theorem claim_C5_risk_gate (config : MarketMakerConfig) (inp : RiskInputs) :
    (config.maxPositionSize ≤ inp.currentPosition →
      performRiskChecks config inp = false) ∧
    (performRiskChecks config inp = true ↔
      inp.currentPosition < config.maxPositionSize ∧
      (0 < inp.portfolioValue →
        -config.maxDrawdown ≤ inp.totalUnrealizedPnL / inp.portfolioValue * 100) ∧
      10 ≤ inp.usdcBalance) := by
  unfold performRiskChecks
  constructor
  · intro h
    rw [if_pos h]
  · split_ifs with h1 h2 h3
    · simp only [false_iff]
      rintro ⟨hlt, -, -⟩
      exact absurd h1 (not_le.mpr hlt)
    · simp only [false_iff]
      rintro ⟨-, hdd, -⟩
      exact absurd (hdd h2.1) (not_le.mpr h2.2)
    · simp only [false_iff]
      rintro ⟨-, -, hbal⟩
      exact absurd hbal (not_le.mpr h3)
    · simp only [true_iff]
      push_neg at h1 h2 h3
      exact ⟨h1, fun hpv => h2 hpv, h3⟩

/-- Risk inputs that must be denied: position 2 at maxPositionSize 1. -/
def riskDenyInp : RiskInputs := ⟨2, 0, 0, 100⟩

/-- Risk inputs that pass all three checks under baseCfg. -/
def riskAllowInp : RiskInputs := ⟨0, 0, 100, 100⟩

/-- Witness for claim_C5_risk_gate: a denied concrete input (position at the
limit) and an allowed concrete input (all three checks pass). -/
theorem claim_C5_risk_gate_witness :
    performRiskChecks baseCfg riskDenyInp = false ∧
    performRiskChecks baseCfg riskAllowInp = true :=
  ⟨(claim_C5_risk_gate baseCfg riskDenyInp).1 (by norm_num [baseCfg, riskDenyInp]),
   (claim_C5_risk_gate baseCfg riskAllowInp).2.mpr
     (by norm_num [baseCfg, riskAllowInp])⟩

/-- A locally tracked order (OrderInfo in src/src/mm/types.ts). goodTilBlock
stores the goodTilBlock of a short-term order or the goodTilTimeInSeconds of a
long-term order, exactly as the source overloads that field. -/
structure OrderInfo where
  marketId : String
  clientId : ℕ
  side : Side
  price : ℚ
  size : ℚ
  goodTilBlock : ℕ
deriving DecidableEq, Repr

/-- activeOrders.set(clientId, info): map-set semantics, replacing any entry
with the same clientId. The activeOrders map and the ordersByMarket index are
modelled as one association list keyed by clientId. -/
def insertTracked (tracking : List OrderInfo) (info : OrderInfo) : List OrderInfo :=
  (tracking.filter fun o => o.clientId ≠ info.clientId) ++ [info]

/-- OrderManager.removeOrderFromTracking / activeOrders.delete: removal is by
clientId. -/
def removeOrderFromTracking (tracking : List OrderInfo) (clientId : ℕ) :
    List OrderInfo :=
  tracking.filter fun o => o.clientId ≠ clientId

/-- OrderManager.getActiveOrders(marketId): the tracked orders of one market. -/
def getActiveOrders (tracking : List OrderInfo) (marketId : String) :
    List OrderInfo :=
  tracking.filter fun o => o.marketId = marketId

/-- One order of the indexer's open-orders response, restricted to the fields
the engine reads: clientId (optional; the sync path filters out entries without
one) and goodTilBlockTime (optional; absent for short-term orders). -/
structure ExchangeOrderView where
  clientId : Option ℕ
  goodTilBlockTime : Option ℕ
deriving DecidableEq, Repr

/-- OrderManager.fetchCurrentOrders: the indexer call is abstracted as its
result; a thrown error is caught and an empty list returned. -/
def fetchCurrentOrders (fetchResult : Except Unit (List ExchangeOrderView)) :
    List ExchangeOrderView :=
  match fetchResult with
  | .ok orders => orders
  | .error _ => []

/-- The exchangeClientIds set of syncOrdersWithExchange: the clientIds present
in the exchange response (entries without a clientId are dropped). -/
def exchangeClientIds (orders : List ExchangeOrderView) : List ℕ :=
  orders.filterMap (·.clientId)

/-- OrderManager.syncOrdersWithExchange: walk the locally tracked orders of the
market (computed from the original tracking) and remove every one whose
clientId the exchange no longer reports as open. -/
def syncOrdersWithExchange (exchangeOrders : List ExchangeOrderView)
    (marketId : String) (tracking : List OrderInfo) : List OrderInfo :=
  let ids := exchangeClientIds exchangeOrders
  (getActiveOrders tracking marketId).foldl
    (fun tr o =>
      if o.clientId ∈ ids then tr else removeOrderFromTracking tr o.clientId)
    tracking

theorem mem_syncFold (ids : List ℕ) (L : List OrderInfo) :
    ∀ (tr : List OrderInfo) (x : OrderInfo),
      (x ∈ L.foldl
          (fun tr o =>
            if o.clientId ∈ ids then tr else removeOrderFromTracking tr o.clientId)
          tr ↔
        x ∈ tr ∧ ∀ o ∈ L, o.clientId ∉ ids → x.clientId ≠ o.clientId) := by
  induction L with
  | nil => intro tr x; simp
  | cons o rest IH =>
    intro tr x
    rw [List.foldl_cons]
    by_cases h : o.clientId ∈ ids
    · rw [if_pos h, IH]
      simp only [List.forall_mem_cons]
      constructor
      · rintro ⟨hx, hrest⟩
        exact ⟨hx, fun hno => absurd h hno, hrest⟩
      · rintro ⟨hx, -, hrest⟩
        exact ⟨hx, hrest⟩
    · rw [if_neg h, IH]
      simp only [removeOrderFromTracking, List.mem_filter, List.forall_mem_cons,
        decide_eq_true_eq]
      constructor
      · rintro ⟨⟨hx, hne⟩, hrest⟩
        exact ⟨hx, fun _ => hne, hrest⟩
      · rintro ⟨hx, hne, hrest⟩
        exact ⟨⟨hx, hne h⟩, hrest⟩

/-- Membership in the reconciled tracking: an order survives the sync exactly
when it was tracked and, if it belongs to the synced market, its clientId is
still reported by the exchange. Needs clientId uniqueness of the tracked
orders, which the engine maintains by keying activeOrders on clientId. -/
theorem mem_syncOrdersWithExchange (exchangeOrders : List ExchangeOrderView)
    (marketId : String) (tracking : List OrderInfo)
    (hnd : (tracking.map (fun o => o.clientId)).Nodup) (x : OrderInfo) :
    x ∈ syncOrdersWithExchange exchangeOrders marketId tracking ↔
      x ∈ tracking ∧
        (x.marketId = marketId → x.clientId ∈ exchangeClientIds exchangeOrders) := by
  unfold syncOrdersWithExchange
  rw [mem_syncFold]
  constructor
  · rintro ⟨hx, hrest⟩
    refine ⟨hx, fun hm => ?_⟩
    by_contra hno
    have hxa : x ∈ getActiveOrders tracking marketId := by
      simp [getActiveOrders, List.mem_filter, hx, hm]
    exact hrest x hxa hno rfl
  · rintro ⟨hx, himp⟩
    refine ⟨hx, fun o ho hno heq => ?_⟩
    have hot : o ∈ tracking := (List.mem_filter.mp ho).1
    have hom : o.marketId = marketId := by
      have := (List.mem_filter.mp ho).2
      simpa using this
    have hxo : x = o :=
      List.inj_on_of_nodup_map hnd hx hot heq
    rw [hxo] at himp
    exact hno (himp hom)

/-- C7 (confirmed): reconciliation removes from local tracking exactly the
tracked orders of the symbol whose clientId is absent from the exchange's
open-order list, and keeps every other tracked order. -/
theorem claim_C7_sync_membership (exchangeOrders : List ExchangeOrderView)
    (marketId : String) (tracking : List OrderInfo)
    (hnd : (tracking.map (fun o => o.clientId)).Nodup) (x : OrderInfo) :
    x ∈ syncOrdersWithExchange exchangeOrders marketId tracking ↔
      x ∈ tracking ∧
        (x.marketId = marketId → x.clientId ∈ exchangeClientIds exchangeOrders) :=
  mem_syncOrdersWithExchange exchangeOrders marketId tracking hnd x

/-- Three concretely tracked orders for the reconciliation example. -/
def ordA : OrderInfo := ⟨"BTC-USD", 1, .buy, 99, 1, 300⟩

def ordB : OrderInfo := ⟨"BTC-USD", 2, .sell, 101, 1, 300⟩

def ordC : OrderInfo := ⟨"BTC-USD", 3, .buy, 98, 1, 300⟩

/-- An exchange view reporting only clientIds 1 and 2 as open. -/
def exViewAB : List ExchangeOrderView := [⟨some 1, some 500⟩, ⟨some 2, none⟩]

/-- Witness for claim_C7_sync_membership: with orders 1,2,3 tracked and the
exchange reporting only 1 and 2 open, exactly order 3 is removed. -/
theorem claim_C7_sync_membership_witness :
    (ordC ∈ syncOrdersWithExchange exViewAB "BTC-USD" [ordA, ordB, ordC] ↔
      ordC ∈ [ordA, ordB, ordC] ∧
        (ordC.marketId = "BTC-USD" → ordC.clientId ∈ exchangeClientIds exViewAB)) ∧
    syncOrdersWithExchange exViewAB "BTC-USD" [ordA, ordB, ordC] = [ordA, ordB] := by
  refine ⟨claim_C7_sync_membership exViewAB "BTC-USD" [ordA, ordB, ordC]
    (by simp [ordA, ordB, ordC]) ordC, ?_⟩
  simp [syncOrdersWithExchange, exchangeClientIds, getActiveOrders,
    removeOrderFromTracking, exViewAB, ordA, ordB, ordC]

/-- C10 (confirmed): when the open-orders fetch throws, fetchCurrentOrders
swallows the error and returns an empty list, and a sync in that situation
removes every tracked order of the symbol from local tracking while leaving
other symbols' orders in place: a transient fetch failure erases all local
order state for the symbol. -/
theorem claim_C10_fetch_error_wipes_tracking (marketId : String)
    (tracking : List OrderInfo)
    (hnd : (tracking.map (fun o => o.clientId)).Nodup) :
    fetchCurrentOrders (Except.error ()) = [] ∧
    getActiveOrders
      (syncOrdersWithExchange (fetchCurrentOrders (Except.error ())) marketId tracking)
      marketId = [] ∧
    ∀ o ∈ tracking, o.marketId ≠ marketId →
      o ∈ syncOrdersWithExchange (fetchCurrentOrders (Except.error ())) marketId tracking := by
  refine ⟨rfl, ?_, ?_⟩
  · unfold getActiveOrders
    rw [List.filter_eq_nil_iff]
    intro o ho
    rw [decide_eq_true_eq]
    intro hm
    have := (mem_syncOrdersWithExchange [] marketId tracking hnd o).mp ho
    have hmem := this.2 hm
    simp [exchangeClientIds] at hmem
  · intro o ho hm
    exact (mem_syncOrdersWithExchange [] marketId tracking hnd o).mpr
      ⟨ho, fun h => absurd h hm⟩

/-- Witness for claim_C10_fetch_error_wipes_tracking on the three-order
tracking state. -/
theorem claim_C10_fetch_error_wipes_tracking_witness :
    fetchCurrentOrders (Except.error ()) = [] ∧
    getActiveOrders
      (syncOrdersWithExchange (fetchCurrentOrders (Except.error ())) "BTC-USD"
        [ordA, ordB, ordC])
      "BTC-USD" = [] ∧
    ∀ o ∈ [ordA, ordB, ordC], o.marketId ≠ "BTC-USD" →
      o ∈ syncOrdersWithExchange (fetchCurrentOrders (Except.error ())) "BTC-USD"
        [ordA, ordB, ordC] :=
  claim_C10_fetch_error_wipes_tracking "BTC-USD" [ordA, ordB, ordC]
    (by simp [ordA, ordB, ordC])

/-- The local fallback of the cancellation-expiry lookup
(src/src/mm/order-manager.ts lines 430-438): use the stored order's
goodTilBlock when present and truthy (nonzero), else now + 60 seconds. -/
def resolveLocalExpiry (tracking : List OrderInfo) (now : ℕ) (clientId : ℕ) : ℕ :=
  match tracking.find? (fun o => o.clientId = clientId) with
  | some storedOrder =>
      if storedOrder.goodTilBlock ≠ 0 then storedOrder.goodTilBlock else now + 60
  | none => now + 60

/-- The goodTilTimeInSeconds used to cancel one long-term order
(src/src/mm/order-manager.ts lines 422-438): prefer the exchange view's
goodTilBlockTime for that clientId, else fall back to the locally stored value,
else to now + 60 seconds. -/
def resolveCancelExpiry (orderMap : List ExchangeOrderView)
    (tracking : List OrderInfo) (now : ℕ) (clientId : ℕ) : ℕ :=
  match orderMap.find? (fun o => o.clientId = some clientId) with
  | some originalOrder =>
      match originalOrder.goodTilBlockTime with
      | some t => t
      | none => resolveLocalExpiry tracking now clientId
  | none => resolveLocalExpiry tracking now clientId

/-- Exchange behaviour during a cancellation run: per-clientId success of
cancelOrder and success of the short-term batch cancel. -/
structure CancelEnv where
  cancelOk : ℕ → Bool
  batchCancelOk : Bool

/-- Observable state of a cancellation run: the (clientId, expiry) pairs
attempted, the number of successful cancels, and the tracking state. -/
structure CancelRun where
  attempts : List (ℕ × ℕ)
  cancelledCount : ℕ
  tracking : List OrderInfo

/-- The per-order loop of the long-term branch of cancelAllOrdersForMarket:
resolve the expiry, attempt the cancel; on success count it and drop the order
from activeOrders, on failure continue with the remaining orders. -/
def cancelLongTermLoop (env : CancelEnv) (orderMap : List ExchangeOrderView)
    (now : ℕ) : List ℕ → CancelRun → CancelRun
  | [], run => run
  | clientId :: rest, run =>
    let expiry := resolveCancelExpiry orderMap run.tracking now clientId
    if env.cancelOk clientId then
      cancelLongTermLoop env orderMap now rest
        { attempts := run.attempts ++ [(clientId, expiry)]
          cancelledCount := run.cancelledCount + 1
          tracking := removeOrderFromTracking run.tracking clientId }
    else
      cancelLongTermLoop env orderMap now rest
        { run with attempts := run.attempts ++ [(clientId, expiry)] }

/-- OrderManager.cancelAllOrdersForMarket: succeed trivially with no tracked
orders; otherwise fetch the exchange's open orders for expiry metadata, pick
the order class (config?.orderType || LONG_TERM); short-term orders are batch
cancelled in one call, long-term orders are cancelled individually through
cancelLongTermLoop, and overall success is cancelledCount = clientIds.length.
The source's local bindings (orderClientIds, currentOrders, orderType, run)
are inlined. -/
def cancelAllOrdersForMarket (env : CancelEnv)
    (fetchResult : Except Unit (List ExchangeOrderView))
    (config : Option MarketMakerConfig) (marketId : String) (now : ℕ)
    (tracking : List OrderInfo) : Bool × CancelRun :=
  if ((getActiveOrders tracking marketId).map (fun o => o.clientId)).isEmpty then
    (true, ⟨[], 0, tracking⟩)
  else
    match (match config with
      | some c => c.orderType
      | none => MMOrderType.LONG_TERM) with
    | .SHORT_TERM =>
      if env.batchCancelOk then
        (true, ⟨[], ((getActiveOrders tracking marketId).map (fun o => o.clientId)).length,
          tracking.filter
            (fun o => o.clientId ∉ (getActiveOrders tracking marketId).map
              (fun o => o.clientId))⟩)
      else
        (false, ⟨[], 0, tracking⟩)
    | .LONG_TERM =>
      (decide ((cancelLongTermLoop env (fetchCurrentOrders fetchResult) now
          ((getActiveOrders tracking marketId).map (fun o => o.clientId))
          ⟨[], 0, tracking⟩).cancelledCount =
        ((getActiveOrders tracking marketId).map (fun o => o.clientId)).length),
       cancelLongTermLoop env (fetchCurrentOrders fetchResult) now
         ((getActiveOrders tracking marketId).map (fun o => o.clientId))
         ⟨[], 0, tracking⟩)

theorem find?_removeOther (tr : List OrderInfo) (a cid : ℕ) (h : a ≠ cid) :
    (removeOrderFromTracking tr a).find? (fun o => o.clientId = cid) =
      tr.find? (fun o => o.clientId = cid) := by
  induction tr with
  | nil => rfl
  | cons o rest IH =>
    unfold removeOrderFromTracking at *
    rw [List.filter_cons]
    by_cases ho : o.clientId = a
    · have hpred : (decide (o.clientId ≠ a)) = false := by simp [ho]
      rw [hpred, if_neg (by simp)]
      have hocid : o.clientId ≠ cid := fun hc => h (ho.symm.trans hc)
      rw [List.find?_cons_of_neg _ (by simp [hocid])]
      exact IH
    · have hpred : (decide (o.clientId ≠ a)) = true := by simp [ho]
      rw [hpred, if_pos rfl]
      by_cases hp : o.clientId = cid
      · rw [List.find?_cons_of_pos _ (by simp [hp]),
          List.find?_cons_of_pos _ (by simp [hp])]
      · rw [List.find?_cons_of_neg _ (by simp [hp]),
          List.find?_cons_of_neg _ (by simp [hp])]
        exact IH

theorem cancelLongTermLoop_spec (env : CancelEnv)
    (orderMap : List ExchangeOrderView) (now : ℕ) (ids : List ℕ) :
    ∀ (run : CancelRun) (tr0 : List OrderInfo),
      ids.Nodup →
      (∀ cid ∈ ids, run.tracking.find? (fun o => o.clientId = cid) =
        tr0.find? (fun o => o.clientId = cid)) →
      (cancelLongTermLoop env orderMap now ids run).attempts =
        run.attempts ++
          ids.map (fun cid => (cid, resolveCancelExpiry orderMap tr0 now cid)) ∧
      (cancelLongTermLoop env orderMap now ids run).cancelledCount =
        run.cancelledCount + ids.countP env.cancelOk := by
  induction ids with
  | nil => intro run tr0 _ _; simp [cancelLongTermLoop]
  | cons c rest IH =>
    intro run tr0 hnd hinv
    have hcfind : run.tracking.find? (fun o => o.clientId = c) =
        tr0.find? (fun o => o.clientId = c) :=
      hinv c (List.mem_cons_self c rest)
    have hexp : resolveCancelExpiry orderMap run.tracking now c =
        resolveCancelExpiry orderMap tr0 now c := by
      unfold resolveCancelExpiry resolveLocalExpiry
      rw [hcfind]
    have hcnotin : c ∉ rest := (List.nodup_cons.mp hnd).1
    have hndrest : rest.Nodup := (List.nodup_cons.mp hnd).2
    unfold cancelLongTermLoop
    by_cases hc : env.cancelOk c
    · rw [if_pos hc]
      have hinv2 : ∀ cid ∈ rest,
          (removeOrderFromTracking run.tracking c).find?
            (fun o => o.clientId = cid) =
          tr0.find? (fun o => o.clientId = cid) := by
        intro cid hcid
        rw [find?_removeOther run.tracking c cid
          (fun he => hcnotin (he ▸ hcid))]
        exact hinv cid (List.mem_cons_of_mem c hcid)
      obtain ⟨ha, hcount⟩ := IH
        { attempts := run.attempts ++
            [(c, resolveCancelExpiry orderMap run.tracking now c)]
          cancelledCount := run.cancelledCount + 1
          tracking := removeOrderFromTracking run.tracking c } tr0 hndrest hinv2
      refine ⟨?_, ?_⟩
      · rw [ha]
        simp [hexp]
      · rw [hcount]
        simp [List.countP_cons, hc]
        omega
    · rw [if_neg hc]
      have hinv2 : ∀ cid ∈ rest,
          run.tracking.find? (fun o => o.clientId = cid) =
          tr0.find? (fun o => o.clientId = cid) :=
        fun cid hcid => hinv cid (List.mem_cons_of_mem c hcid)
      obtain ⟨ha, hcount⟩ := IH
        { attempts := run.attempts ++
            [(c, resolveCancelExpiry orderMap run.tracking now c)]
          cancelledCount := run.cancelledCount
          tracking := run.tracking } tr0 hndrest hinv2
      refine ⟨?_, ?_⟩
      · rw [ha]
        simp [hexp]
      · rw [hcount]
        simp [List.countP_cons, hc]

/-- The conclusion of the C8 claim for the long-lived order class. -/
def cancelConclusion (env : CancelEnv)
    (fetchResult : Except Unit (List ExchangeOrderView))
    (config : Option MarketMakerConfig) (marketId : String) (now : ℕ)
    (tracking : List OrderInfo) : Prop :=
  ((getActiveOrders tracking marketId).map (fun o => o.clientId) = [] →
    (cancelAllOrdersForMarket env fetchResult config marketId now tracking).1 = true ∧
    (cancelAllOrdersForMarket env fetchResult config marketId now tracking).2.tracking =
      tracking) ∧
  (cancelAllOrdersForMarket env fetchResult config marketId now
      tracking).2.attempts.map Prod.fst =
    (getActiveOrders tracking marketId).map (fun o => o.clientId) ∧
  (∀ pr ∈ (cancelAllOrdersForMarket env fetchResult config marketId now
      tracking).2.attempts,
    pr.2 = resolveCancelExpiry (fetchCurrentOrders fetchResult) tracking now pr.1) ∧
  ((cancelAllOrdersForMarket env fetchResult config marketId now tracking).1 = true ↔
    ∀ cid ∈ (getActiveOrders tracking marketId).map (fun o => o.clientId),
      env.cancelOk cid = true)

/-- C8 (confirmed, long-lived order class): cancelAllOrdersForMarket succeeds
trivially when nothing is tracked for the symbol; every tracked order is
attempted even when earlier cancellations fail; each attempt uses the expiry
from the exchange's open-orders view when present, else the locally stored
expiry, else now + 60 seconds; and the call reports success exactly when every
attempted cancellation succeeded. -/
theorem claim_C8_cancel_protocol (env : CancelEnv)
    (fetchResult : Except Unit (List ExchangeOrderView))
    (config : Option MarketMakerConfig) (marketId : String) (now : ℕ)
    (tracking : List OrderInfo)
    (horder : (match config with
      | some c => c.orderType
      | none => MMOrderType.LONG_TERM) = MMOrderType.LONG_TERM)
    (hnd : ((getActiveOrders tracking marketId).map (fun o => o.clientId)).Nodup) :
    cancelConclusion env fetchResult config marketId now tracking := by
  by_cases hids : ((getActiveOrders tracking marketId).map (fun o => o.clientId)).isEmpty
  · have hres : cancelAllOrdersForMarket env fetchResult config marketId now tracking =
        (true, ⟨[], 0, tracking⟩) := by
      unfold cancelAllOrdersForMarket
      rw [if_pos hids]
    have hnil : (getActiveOrders tracking marketId).map (fun o => o.clientId) = [] :=
      List.isEmpty_iff.mp hids
    unfold cancelConclusion
    rw [hres]
    exact ⟨fun _ => ⟨rfl, rfl⟩, by simp [hnil], by simp, by simp [hnil]⟩
  · have hres : cancelAllOrdersForMarket env fetchResult config marketId now tracking =
        (decide ((cancelLongTermLoop env (fetchCurrentOrders fetchResult) now
            ((getActiveOrders tracking marketId).map (fun o => o.clientId))
            ⟨[], 0, tracking⟩).cancelledCount =
          ((getActiveOrders tracking marketId).map (fun o => o.clientId)).length),
         cancelLongTermLoop env (fetchCurrentOrders fetchResult) now
           ((getActiveOrders tracking marketId).map (fun o => o.clientId))
           ⟨[], 0, tracking⟩) := by
      unfold cancelAllOrdersForMarket
      rw [horder, if_neg hids]
    obtain ⟨ha, hcount⟩ :=
      cancelLongTermLoop_spec env (fetchCurrentOrders fetchResult) now
        ((getActiveOrders tracking marketId).map (fun o => o.clientId))
        ⟨[], 0, tracking⟩ tracking hnd (fun _ _ => rfl)
    have hnil : ¬ ((getActiveOrders tracking marketId).map (fun o => o.clientId) = []) :=
      fun h => hids (by simp [h])
    unfold cancelConclusion
    rw [hres]
    refine ⟨fun h => absurd h hnil, ?_, ?_, ?_⟩
    · rw [ha]
      simp [List.map_map, Function.comp]
    · intro pr hpr
      rw [ha] at hpr
      simp only [List.nil_append, List.mem_map] at hpr
      obtain ⟨cid, _, rfl⟩ := hpr
      rfl
    · rw [hcount]
      simp only [Nat.zero_add, decide_eq_true_eq]
      rw [List.countP_eq_length]

/-- A cancellation environment where every operation succeeds. -/
def allOkCancelEnv : CancelEnv := ⟨fun _ => true, true⟩

/-- Witness for claim_C8_cancel_protocol with config absent (defaulting to the
long-term class), the three tracked orders, and an exchange view reporting
orders 1 and 2. -/
theorem claim_C8_cancel_protocol_witness :
    cancelConclusion allOkCancelEnv (Except.ok exViewAB) none "BTC-USD" 1000
      [ordA, ordB, ordC] :=
  claim_C8_cancel_protocol allOkCancelEnv (Except.ok exViewAB) none "BTC-USD" 1000
    [ordA, ordB, ordC] rfl (by simp [getActiveOrders, ordA, ordB, ordC])

/-- Exchange and id-generation behaviour during a placement run: whether the
k-th submission is accepted by the exchange, and the clientId / expiry values
generated for it (generateRandomClientId and the randomized good-til values
are abstracted as functions of the submission index). -/
structure PlacementEnv where
  accepts : ℕ → Bool
  clientIdOf : ℕ → ℕ
  expiryOf : ℕ → ℕ

/-- The OrderInfo recorded for the k-th submission when it succeeds
(OrderManager.placeOrder: price and size are re-rounded with the configured
decimals before submission, and the order is registered under its clientId). -/
def mkOrderInfo (env : PlacementEnv) (config : MarketMakerConfig)
    (marketId : String) (k : ℕ) (req : OrderRequest) : OrderInfo :=
  { marketId := marketId
    clientId := env.clientIdOf k
    side := req.side
    price := roundPrice req.price (jsOrNat config.orderConfig.roundPriceDecimals 3)
    size := roundSize req.size (jsOrNat config.orderConfig.roundSizeDecimals 4)
    goodTilBlock := env.expiryOf k }

/-- The sequential placement loop of placeOrdersAroundMidPrice (batchSize = 1):
each request is submitted in turn with the next submission index k; a failed
submission (placeOrder catches the error and returns null) is skipped and the
loop continues; each success is appended to placedOrders and registered in
tracking. -/
def placeOrdersSeq (env : PlacementEnv) (config : MarketMakerConfig)
    (marketId : String) : ℕ → List OrderRequest → List OrderInfo →
    List OrderInfo × List OrderInfo
  | _, [], tracking => ([], tracking)
  | k, req :: rest, tracking =>
    if env.accepts k then
      (mkOrderInfo env config marketId k req ::
        (placeOrdersSeq env config marketId (k + 1) rest
          (insertTracked tracking (mkOrderInfo env config marketId k req))).1,
       (placeOrdersSeq env config marketId (k + 1) rest
          (insertTracked tracking (mkOrderInfo env config marketId k req))).2)
    else
      placeOrdersSeq env config marketId (k + 1) rest tracking

/-- requests.slice(i, i + batchSize) chunking of the batched path. -/
def chunkList (n : ℕ) : List α → List (List α)
  | [] => []
  | x :: xs =>
    if hn : n = 0 then [x :: xs]
    else (x :: xs).take n :: chunkList n ((x :: xs).drop n)
termination_by l => l.length
decreasing_by
  have h2 : 0 < n := Nat.pos_of_ne_zero hn
  simp only [List.length_drop]
  simp only [List.length_cons]
  omega

/-- The batched path of placeOrdersAroundMidPrice (batchSize > 1): every batch
is submitted with Promise.allSettled (all submissions awaited, rejections
logged and skipped, siblings unaffected), batches processed strictly in order.
In this deterministic model the submissions of a batch are evaluated in list
order, which is one admissible interleaving. -/
def runBatches (env : PlacementEnv) (config : MarketMakerConfig)
    (marketId : String) : ℕ → List (List OrderRequest) → List OrderInfo →
    List OrderInfo × List OrderInfo
  | _, [], tracking => ([], tracking)
  | k, batch :: rest, tracking =>
    ((placeOrdersSeq env config marketId k batch tracking).1 ++
      (runBatches env config marketId (k + batch.length) rest
        (placeOrdersSeq env config marketId k batch tracking).2).1,
     (runBatches env config marketId (k + batch.length) rest
       (placeOrdersSeq env config marketId k batch tracking).2).2)

/-- Batched placement over the batchSize-chunked request list. -/
def placeOrdersBatched (env : PlacementEnv) (config : MarketMakerConfig)
    (marketId : String) (batchSize : ℕ) (requests : List OrderRequest)
    (tracking : List OrderInfo) : List OrderInfo × List OrderInfo :=
  runBatches env config marketId 0 (chunkList batchSize requests) tracking

theorem placeOrdersSeq_cons (env : PlacementEnv) (config : MarketMakerConfig)
    (marketId : String) (k : ℕ) (req : OrderRequest) (rest : List OrderRequest)
    (tr : List OrderInfo) :
    placeOrdersSeq env config marketId k (req :: rest) tr =
      if env.accepts k then
        (mkOrderInfo env config marketId k req ::
          (placeOrdersSeq env config marketId (k + 1) rest
            (insertTracked tr (mkOrderInfo env config marketId k req))).1,
         (placeOrdersSeq env config marketId (k + 1) rest
           (insertTracked tr (mkOrderInfo env config marketId k req))).2)
      else placeOrdersSeq env config marketId (k + 1) rest tr := rfl

theorem placeOrdersSeq_append (env : PlacementEnv) (config : MarketMakerConfig)
    (marketId : String) (xs : List OrderRequest) :
    ∀ (ys : List OrderRequest) (k : ℕ) (tr : List OrderInfo),
      placeOrdersSeq env config marketId k (xs ++ ys) tr =
        ((placeOrdersSeq env config marketId k xs tr).1 ++
          (placeOrdersSeq env config marketId (k + xs.length) ys
            (placeOrdersSeq env config marketId k xs tr).2).1,
         (placeOrdersSeq env config marketId (k + xs.length) ys
           (placeOrdersSeq env config marketId k xs tr).2).2) := by
  induction xs with
  | nil => intro ys k tr; simp [placeOrdersSeq]
  | cons x xs IH =>
    intro ys k tr
    rw [List.cons_append, placeOrdersSeq_cons, placeOrdersSeq_cons]
    have harith : k + (x :: xs).length = k + 1 + xs.length := by
      simp only [List.length_cons]
      omega
    by_cases h : env.accepts k
    · rw [if_pos h, if_pos h, IH, harith]
      simp
    · rw [if_neg h, if_neg h, IH, harith]

theorem runBatches_chunk (env : PlacementEnv) (config : MarketMakerConfig)
    (marketId : String) (n : ℕ) (hn : n ≠ 0) :
    ∀ (len : ℕ) (l : List OrderRequest) (k : ℕ) (tr : List OrderInfo),
      l.length ≤ len →
      runBatches env config marketId k (chunkList n l) tr =
        placeOrdersSeq env config marketId k l tr := by
  intro len
  induction len with
  | zero =>
    intro l k tr hl
    have : l = [] := List.eq_nil_of_length_eq_zero (Nat.le_zero.mp hl)
    subst this
    simp [chunkList, runBatches, placeOrdersSeq]
  | succ m IH =>
    intro l k tr hl
    match l with
    | [] => simp [chunkList, runBatches, placeOrdersSeq]
    | x :: xs =>
      rw [chunkList, dif_neg hn]
      unfold runBatches
      have hdrop : ((x :: xs).drop n).length ≤ m := by
        have h2 : 0 < n := Nat.pos_of_ne_zero hn
        simp only [List.length_drop, List.length_cons]
        simp only [List.length_cons] at hl
        omega
      rw [IH ((x :: xs).drop n) (k + ((x :: xs).take n).length) _ hdrop]
      have happ := placeOrdersSeq_append env config marketId ((x :: xs).take n)
        ((x :: xs).drop n) k tr
      rw [List.take_append_drop] at happ
      rw [happ]

theorem placeOrdersSeq_fst (env : PlacementEnv) (config : MarketMakerConfig)
    (marketId : String) (reqs : List OrderRequest) :
    ∀ (k : ℕ) (tr : List OrderInfo),
      (placeOrdersSeq env config marketId k reqs tr).1 =
        (List.enumFrom k reqs).filterMap
          (fun p => if env.accepts p.1 then
            some (mkOrderInfo env config marketId p.1 p.2) else none) := by
  induction reqs with
  | nil => intro k tr; simp [placeOrdersSeq]
  | cons r rest IH =>
    intro k tr
    unfold placeOrdersSeq
    rw [List.enumFrom]
    rw [List.filterMap_cons]
    by_cases h : env.accepts k
    · rw [if_pos h]
      simp only [h, if_pos]
      rw [IH]
    · rw [if_neg h]
      simp only [h]
      simp only [Bool.false_eq_true, if_false]
      rw [IH]

theorem placeOrdersSeq_snd (env : PlacementEnv) (config : MarketMakerConfig)
    (marketId : String) (reqs : List OrderRequest) :
    ∀ (k : ℕ) (tr : List OrderInfo),
      (placeOrdersSeq env config marketId k reqs tr).2 =
        (placeOrdersSeq env config marketId k reqs tr).1.foldl insertTracked tr := by
  induction reqs with
  | nil => intro k tr; simp [placeOrdersSeq]
  | cons r rest IH =>
    intro k tr
    unfold placeOrdersSeq
    by_cases h : env.accepts k
    · rw [if_pos h]
      simp only [List.foldl_cons]
      exact IH (k + 1) (insertTracked tr (mkOrderInfo env config marketId k r))
    · rw [if_neg h]
      exact IH (k + 1) tr

theorem foldl_insertTracked (infos : List OrderInfo) :
    ∀ (acc : List OrderInfo),
      (∀ a ∈ acc, ∀ b ∈ infos, a.clientId ≠ b.clientId) →
      (infos.map (fun o => o.clientId)).Nodup →
      infos.foldl insertTracked acc = acc ++ infos := by
  induction infos with
  | nil => intro acc _ _; simp
  | cons i rest IH =>
    intro acc hdisj hnd
    rw [List.foldl_cons]
    have hins : insertTracked acc i = acc ++ [i] := by
      unfold insertTracked
      congr 1
      rw [List.filter_eq_self]
      intro a ha
      simpa using hdisj a ha i (List.mem_cons_self i rest)
    rw [hins]
    have hhead : i.clientId ∉ rest.map (fun o => o.clientId) :=
      (List.nodup_cons.mp (by simpa using hnd)).1
    have hdisj2 : ∀ a ∈ acc ++ [i], ∀ b ∈ rest, a.clientId ≠ b.clientId := by
      intro a ha b hb
      rcases List.mem_append.mp ha with hacc | hai
      · exact hdisj a hacc b (List.mem_cons_of_mem i hb)
      · have : a = i := by simpa using hai
        subst this
        intro he
        exact hhead (he ▸ List.mem_map_of_mem (fun o => o.clientId) hb)
    have hnd2 : (rest.map (fun o => o.clientId)).Nodup :=
      (List.nodup_cons.mp (by simpa using hnd)).2
    rw [IH (acc ++ [i]) hdisj2 hnd2]
    simp

theorem length_filterMap_ifPred {α β : Type} (p : α → Bool) (g : α → β)
    (l : List α) :
    (l.filterMap (fun x => if p x then some (g x) else none)).length =
      l.countP p := by
  induction l with
  | nil => simp
  | cons x xs IH =>
    rw [List.filterMap_cons, List.countP_cons]
    by_cases h : p x
    · simp only [h, if_pos, List.length_cons, IH]
    · simp only [h]
      simp only [Bool.false_eq_true, if_false, IH]
      omega

theorem filterMap_if_eq_map_filter {α β : Type} (p : α → Bool) (g : α → β)
    (l : List α) :
    l.filterMap (fun x => if p x then some (g x) else none) =
      (l.filter p).map g := by
  induction l with
  | nil => simp
  | cons x xs IH =>
    rw [List.filterMap_cons, List.filter_cons]
    by_cases h : p x
    · simp only [h, if_pos, List.map_cons, IH]
    · simp only [h]
      simp only [Bool.false_eq_true, if_false, IH]

theorem countP_accepts_window (env : PlacementEnv) (reqs : List OrderRequest) :
    ∀ (k f : ℕ),
      (∀ j, k ≤ j → j < k + reqs.length → (env.accepts j = false ↔ j = f)) →
      (k ≤ f → f < k + reqs.length →
        (List.enumFrom k reqs).countP (fun p => env.accepts p.1) =
          reqs.length - 1) ∧
      ((f < k ∨ k + reqs.length ≤ f) →
        (List.enumFrom k reqs).countP (fun p => env.accepts p.1) =
          reqs.length) := by
  induction reqs with
  | nil =>
    intro k f _
    refine ⟨fun h1 h2 => ?_, fun _ => by simp⟩
    simp at h2
    omega
  | cons r rest IH =>
    intro k f hwin
    have hwinrest : ∀ j, k + 1 ≤ j → j < (k + 1) + rest.length →
        (env.accepts j = false ↔ j = f) := by
      intro j hj1 hj2
      exact hwin j (by omega) (by simp; omega)
    obtain ⟨IH1, IH2⟩ := IH (k + 1) f hwinrest
    have hk : env.accepts k = false ↔ k = f :=
      hwin k le_rfl (by simp)
    rw [List.enumFrom, List.countP_cons]
    by_cases hkf : k = f
    · have hacck : env.accepts k = false := hk.mpr hkf
      rw [IH2 (by omega)]
      simp only [hacck]
      constructor
      · intro _ _
        simp
      · intro hout
        simp only [List.length_cons] at hout
        omega
    · have hacck : env.accepts k = true := by
        cases hb : env.accepts k
        · exact absurd (hk.mp hb) hkf
        · rfl
      simp only [hacck, if_pos, List.length_cons]
      constructor
      · intro h1 h2
        have hf1 : k + 1 ≤ f := by omega
        have hf2 : f < (k + 1) + rest.length := by omega
        rw [IH1 hf1 hf2]
        omega
      · intro hout
        have : f < k + 1 ∨ (k + 1) + rest.length ≤ f := by omega
        rcases this with hlt | hge
        · rw [IH2 (Or.inl (by omega))]
        · rw [IH2 (Or.inr hge)]

/-- The conclusion of the C6 claim: with exactly one rejected submission among
the N requests, the accepted list has length N - 1, local tracking (starting
empty for the refresh cycle) ends up containing exactly the accepted orders,
and the batched path — for any positive batch size — attempts every request
and produces the same accepted orders and tracking as the sequential path. -/
def placementConclusion (env : PlacementEnv) (config : MarketMakerConfig)
    (marketId : String) (requests : List OrderRequest) : Prop :=
  (placeOrdersSeq env config marketId 0 requests []).1.length =
    requests.length - 1 ∧
  (placeOrdersSeq env config marketId 0 requests []).2 =
    (placeOrdersSeq env config marketId 0 requests []).1 ∧
  ∀ b : ℕ, b ≠ 0 →
    placeOrdersBatched env config marketId b requests [] =
      placeOrdersSeq env config marketId 0 requests []

/-- C6 (confirmed): in a placement run over N valid intents where the exchange
rejects exactly one submission, the rejection neither aborts the remaining
sequential submissions nor cancels batch siblings (all requests are processed,
in batches of any positive size with the same outcome), the accepted list has
length N - 1, and local tracking afterwards contains exactly the accepted
orders. -/
theorem claim_C6_placement_run (env : PlacementEnv) (config : MarketMakerConfig)
    (marketId : String) (requests : List OrderRequest) (f : ℕ)
    (hf : f < requests.length)
    (hacc : ∀ j < requests.length, (env.accepts j = false ↔ j = f))
    (hinj : Function.Injective env.clientIdOf) :
    placementConclusion env config marketId requests := by
  have hfst := placeOrdersSeq_fst env config marketId requests 0 []
  have hwin : ∀ j, 0 ≤ j → j < 0 + requests.length →
      (env.accepts j = false ↔ j = f) := by
    intro j _ hj
    exact hacc j (by omega)
  refine ⟨?_, ?_, ?_⟩
  · rw [hfst, length_filterMap_ifPred]
    exact (countP_accepts_window env requests 0 f hwin).1 (Nat.zero_le f)
      (by omega)
  · rw [placeOrdersSeq_snd]
    have hndids :
        (((placeOrdersSeq env config marketId 0 requests []).1).map
          (fun o => o.clientId)).Nodup := by
      rw [hfst, filterMap_if_eq_map_filter]
      have hmm : (((List.enumFrom 0 requests).filter
            (fun p => env.accepts p.1)).map
          (fun p => mkOrderInfo env config marketId p.1 p.2)).map
            (fun o => o.clientId) =
          (((List.enumFrom 0 requests).filter
            (fun p => env.accepts p.1)).map Prod.fst).map env.clientIdOf := by
        simp [List.map_map, Function.comp, mkOrderInfo]
      rw [hmm]
      refine List.Nodup.map hinj ?_
      refine List.Nodup.sublist (List.Sublist.map Prod.fst
        (List.filter_sublist _)) ?_
      rw [List.enumFrom_map_fst]
      exact List.nodup_range' 0 requests.length
    rw [foldl_insertTracked _ [] (by simp) hndids]
    simp
  · intro b hb
    unfold placeOrdersBatched
    exact runBatches_chunk env config marketId b hb requests.length requests 0 []
      le_rfl

/-- A placement environment where exactly submission 1 is rejected, clientIds
are the submission indices, and expiries are constant. -/
def testPlacementEnv : PlacementEnv :=
  ⟨fun k => decide (k ≠ 1), fun k => k, fun _ => 300⟩

/-- Three valid order requests for the placement witness. -/
def reqs3 : List OrderRequest :=
  [⟨Side.buy, 99, 1⟩, ⟨Side.buy, 98, 1⟩, ⟨Side.sell, 101, 1⟩]

/-- Witness for claim_C6_placement_run: three requests, submission 1 rejected. -/
theorem claim_C6_placement_run_witness :
    placementConclusion testPlacementEnv baseCfg "BTC-USD" reqs3 :=
  claim_C6_placement_run testPlacementEnv baseCfg "BTC-USD" reqs3 1
    (by simp [reqs3])
    (by
      intro j hj
      simp only [reqs3, List.length_cons, List.length_nil] at hj
      interval_cases j <;> simp [testPlacementEnv])
    (fun a b h => h)

/-- The operations MarketMakerBot.refreshOrders can await, in the source's
numbering: cancel existing orders (step 1), the fixed 1s wait for
cancellations, sync with the exchange (step 2), place new orders (step 3). -/
inductive RefreshStep where
  | cancelExistingOrders
  | sleepForCancellations
  | syncWithExchange
  | placeNewOrders
deriving DecidableEq, Repr

/-- The awaited operations of MarketMakerBot.refreshOrders in source order
(src/ORACLE_STRATEGY.md, refreshOrders): the cancelAllOrdersForMarket call of
step 1 is commented out in the source, so the executed steps are the sleep,
the exchange sync, and the placement of new orders. -/
def refreshOrdersTrace : List RefreshStep :=
  [.sleepForCancellations, .syncWithExchange, .placeNewOrders]

/-- C1 (code bug): the refresh cycle never attempts a cancellation — the
cancelAllOrdersForMarket call is commented out while the surrounding code still
logs "Order cancellation completed" — although reconciliation does complete
before the new placement, as the claim also requires. -/
theorem claim_C1_refresh_cycle_order :
    RefreshStep.cancelExistingOrders ∉ refreshOrdersTrace ∧
    refreshOrdersTrace.indexOf RefreshStep.syncWithExchange <
      refreshOrdersTrace.indexOf RefreshStep.placeNewOrders := by
  decide

end DydxMM
